import Mathlib

/-!
Shallow embedding of the apix integration-test repository.

The client-side signer lives in `src/src/client.ts` (`ApiXClient.generateSignature`,
`ApiXClient.generateNonce`, and the acceptance `TestSequence` data); the server-side
configuration lives in `src/src/server.ts` and `src/unnamed/part_000`
(`TestDataManager`, the body/query validators, `TestAccessLevelEvaluator`, and the
quote endpoint handlers).

JavaScript strings are sequences of UTF-16 code units; we embed them as `List Nat`
(each entry one code unit).  JavaScript numbers appearing in the claims are integers,
embedded as `Int`.  JavaScript objects are embedded as insertion-ordered association
lists; the well-formedness predicate `Json.wf` states that key lists are duplicate
free at every level, which is automatic for real JavaScript objects.
-/

namespace ApiX

/-- A JavaScript string: its list of UTF-16 code units. -/
abbrev JStr := List Nat

/-- UTF-16 code units of a single Unicode scalar value
(surrogate-pair encoding for code points above U+FFFF). -/
def utf16Units (c : Char) : List Nat :=
  let v := c.toNat
  if v < 0x10000 then [v]
  else [0xD800 + (v - 0x10000) / 0x400, 0xDC00 + (v - 0x10000) % 0x400]

/-- Conversion of a Lean string literal into the JavaScript string it denotes. -/
def jstr (s : String) : JStr := (s.data.map utf16Units).flatten

/-- JSON-serializable JavaScript values, as produced by a `Record<string, unknown>`
HTTP body: strings, (integer) numbers, booleans, null, arrays and objects.
Objects carry their fields in enumeration (insertion) order. -/
inductive Json : Type where
  | str (s : JStr)
  | num (n : Int)
  | bool (b : Bool)
  | null
  | arr (elems : List Json)
  | obj (fields : List (JStr × Json))

mutual

/-- Well-formedness: every object in the value has duplicate-free keys.
JavaScript objects always satisfy this. -/
def Json.wf : Json → Bool
  | .str _ => true
  | .num _ => true
  | .bool _ => true
  | .null => true
  | .arr es => Json.wfList es
  | .obj fs => decide ((fs.map Prod.fst).Nodup) && Json.wfFields fs

/-- All values in a list of JSON values are well-formed. -/
def Json.wfList : List Json → Bool
  | [] => true
  | e :: es => e.wf && Json.wfList es

/-- All values of an object's fields are well-formed. -/
def Json.wfFields : List (JStr × Json) → Bool
  | [] => true
  | (_, v) :: fs => v.wf && Json.wfFields fs

end

/-- A lowercase hexadecimal digit (code unit). -/
def hexDigit (n : Nat) : Nat := if n < 10 then 48 + n else 87 + n

/-- ECMAScript `QuoteJSONString` applied to one code unit: escape the quotation
mark, the backslash and control characters; other units pass through.
(`jstr` never produces lone surrogates, so their escaping is not modelled.) -/
def escUnit (u : Nat) : List Nat :=
  if u = 34 then [92, 34]
  else if u = 92 then [92, 92]
  else if u = 8 then [92, 98]
  else if u = 9 then [92, 116]
  else if u = 10 then [92, 110]
  else if u = 12 then [92, 102]
  else if u = 13 then [92, 114]
  else if u < 32 then
    [92, 117, hexDigit (u / 4096 % 16), hexDigit (u / 256 % 16),
     hexDigit (u / 16 % 16), hexDigit (u % 16)]
  else [u]

/-- ECMAScript `QuoteJSONString`: the string surrounded by quotation marks, with
escaping applied to each code unit. -/
def quoteJson (s : JStr) : JStr := 34 :: (s.map escUnit).flatten ++ [34]

/-- Comma-separated concatenation. -/
def joinComma : List JStr → JStr
  | [] => []
  | [s] => s
  | s :: rest => s ++ [44] ++ joinComma rest

/-- `"key":value` members of an object in property-list order: for each key of the
property list, if it is a key of the (already value-serialized) field list, emit it;
keys absent from the property list are dropped. -/
def arrange (pl : List JStr) (m : List (JStr × JStr)) : List JStr :=
  pl.filterMap fun k => (List.lookup k m).map fun sv => quoteJson k ++ 58 :: sv

mutual

/-- `SerializeJSONProperty` of ECMAScript `JSON.stringify(value, replacer)` with an
array replacer: when serializing any object (at any depth), exactly the keys listed
in the property list `pl` are emitted, in the order of `pl`, each looked up in the
object; keys of the object that are not in `pl` are dropped.  Arrays and scalars
are serialized as usual. -/
def Json.ser (pl : List JStr) : Json → JStr
  | .str s => quoteJson s
  | .num n => jstr (toString n)
  | .bool b => if b then jstr "true" else jstr "false"
  | .null => jstr "null"
  | .arr es => 91 :: joinComma (Json.serList pl es) ++ [93]
  | .obj fs => 123 :: joinComma (arrange pl (Json.serFields pl fs)) ++ [125]

/-- Serializations of the elements of an array. -/
def Json.serList (pl : List JStr) : List Json → List JStr
  | [] => []
  | e :: es => Json.ser pl e :: Json.serList pl es

/-- Each field's value serialized, keeping the key. -/
def Json.serFields (pl : List JStr) : List (JStr × Json) → List (JStr × JStr)
  | [] => []
  | (k, v) :: fs => (k, Json.ser pl v) :: Json.serFields pl fs

end

/-- `Object.keys(httpBody).sort()`: the keys sorted ascending by the default
comparator, i.e. lexicographically by UTF-16 code unit. -/
def sortKeys (ks : List JStr) : List JStr := List.insertionSort (· ≤ ·) ks

/-- `JSON.stringify(httpBody, Object.keys(httpBody).sort())` from
`ApiXClient.generateSignature`. -/
def stringifyBody (fs : List (JStr × Json)) : JStr :=
  Json.ser (sortKeys (fs.map Prod.fst)) (Json.obj fs)

/-- `Object.keys(httpBody).length > 0 ? JSON.stringify(httpBody, Object.keys(httpBody).sort()) : ''`. -/
def stringifiedJsonBody (fs : List (JStr × Json)) : JStr :=
  if fs.isEmpty then [] else stringifyBody fs

/-- `Buffer.from(s, 'binary')`: each UTF-16 code unit truncated to its low byte. -/
def latin1Bytes (s : JStr) : List Nat := s.map (· % 256)

/-- The base64 alphabet. -/
def b64Alphabet : List Nat :=
  jstr "ABCDEFGHIJKLMNOPQRSTUVWXYZabcdefghijklmnopqrstuvwxyz0123456789+/"

/-- Character of the base64 alphabet at a 6-bit index. -/
def b64Char (n : Nat) : Nat := b64Alphabet.getD n 65

/-- Standard base64 encoding with `=` padding (`Buffer.toString('base64')`). -/
def base64Encode : List Nat → List Nat
  | [] => []
  | [b1] => [b64Char (b1 / 4), b64Char (b1 % 4 * 16), 61, 61]
  | [b1, b2] => [b64Char (b1 / 4), b64Char (b1 % 4 * 16 + b2 / 16), b64Char (b2 % 16 * 4), 61]
  | b1 :: b2 :: b3 :: rest =>
    b64Char (b1 / 4) :: b64Char (b1 % 4 * 16 + b2 / 16) ::
      b64Char (b2 % 16 * 4 + b3 / 64) :: b64Char (b3 % 64) :: base64Encode rest

/-- `stringifiedJsonBody.length > 0 ? Buffer.from(stringifiedJsonBody, 'binary').toString('base64') : ''`. -/
def httpBodyBase64 (fs : List (JStr × Json)) : JStr :=
  let s := stringifiedJsonBody fs
  if s.isEmpty then [] else base64Encode (latin1Bytes s)

/-- The HTTP methods accepted by `ApiXClient`. -/
inductive HttpMethod : Type where
  | GET | POST | PUT | DELETE | PATCH
deriving DecidableEq, Repr

/-- The string interpolated for the method in the canonical message. -/
def HttpMethod.toJStr : HttpMethod → JStr
  | .GET => jstr "GET"
  | .POST => jstr "POST"
  | .PUT => jstr "PUT"
  | .DELETE => jstr "DELETE"
  | .PATCH => jstr "PATCH"

/-- The delimiter of the canonical message. -/
def dot : JStr := [46]

/-- The canonical message
`` `${endpointPath}.${method}.${nonce}.${dateString}.${httpBodyBase64}` ``
built by `ApiXClient.generateSignature`. -/
def canonicalMessage (endpointPath : JStr) (method : HttpMethod)
    (nonce dateString : JStr) (httpBody : List (JStr × Json)) : JStr :=
  endpointPath ++ dot ++ method.toJStr ++ dot ++ nonce ++ dot ++ dateString
    ++ dot ++ httpBodyBase64 httpBody

/-- UTF-8 bytes of one Unicode code point. -/
def utf8Cp (c : Nat) : List Nat :=
  if c < 0x80 then [c]
  else if c < 0x800 then [0xC0 + c / 64, 0x80 + c % 64]
  else if c < 0x10000 then [0xE0 + c / 4096, 0x80 + c / 64 % 64, 0x80 + c % 64]
  else [0xF0 + c / 262144, 0x80 + c / 4096 % 64, 0x80 + c / 64 % 64, 0x80 + c % 64]

/-- UTF-8 encoding of a JavaScript string (Node `'utf-8'`): surrogate pairs are
combined, unpaired surrogates become U+FFFD. -/
def utf8Encode : JStr → List Nat
  | [] => []
  | [u] => if 0xD800 ≤ u ∧ u ≤ 0xDFFF then utf8Cp 0xFFFD else utf8Cp u
  | u :: u2 :: rest =>
    if 0xD800 ≤ u ∧ u ≤ 0xDBFF then
      if 0xDC00 ≤ u2 ∧ u2 ≤ 0xDFFF then
        utf8Cp (0x10000 + (u - 0xD800) * 0x400 + (u2 - 0xDC00)) ++ utf8Encode rest
      else utf8Cp 0xFFFD ++ utf8Encode (u2 :: rest)
    else if 0xDC00 ≤ u ∧ u ≤ 0xDFFF then utf8Cp 0xFFFD ++ utf8Encode (u2 :: rest)
    else utf8Cp u ++ utf8Encode (u2 :: rest)

/-! ### SHA-256 and HMAC (the `crypto.createHmac('sha256', …)` collaborator)

FIPS 180-4 SHA-256 over byte lists, machine words as `Nat` reduced mod `2 ^ 32`. -/

/-- Truncation to a 32-bit word. -/
def w32 (n : Nat) : Nat := n % 4294967296

/-- Right rotation of a 32-bit word by `n` bits. -/
def rotr (n x : Nat) : Nat := w32 (x / 2 ^ n + x % 2 ^ n * 2 ^ (32 - n))

/-- The SHA-256 round constants. -/
def shaK : List Nat :=
  [1116352408, 1899447441, 3049323471, 3921009573, 961987163, 1508970993,
   2453635748, 2870763221, 3624381080, 310598401, 607225278, 1426881987,
   1925078388, 2162078206, 2614888103, 3248222580, 3835390401, 4022224774,
   264347078, 604807628, 770255983, 1249150122, 1555081692, 1996064986,
   2554220882, 2821834349, 2952996808, 3210313671, 3336571891, 3584528711,
   113926993, 338241895, 666307205, 773529912, 1294757372, 1396182291,
   1695183700, 1986661051, 2177026350, 2456956037, 2730485921, 2820302411,
   3259730800, 3345764771, 3516065817, 3600352804, 4094571909, 275423344,
   430227734, 506948616, 659060556, 883997877, 958139571, 1322822218,
   1537002063, 1747873779, 1955562222, 2024104815, 2227730452, 2361852424,
   2428436474, 2756734187, 3204031479, 3329325298]

/-- The SHA-256 initial hash value. -/
def shaH0 : List Nat :=
  [1779033703, 3144134277, 1013904242, 2773480762,
   1359893119, 2600822924, 528734635, 1541459225]

/-- σ₀ message-schedule function. -/
def sigma0 (x : Nat) : Nat := rotr 7 x ^^^ rotr 18 x ^^^ x / 8

/-- σ₁ message-schedule function. -/
def sigma1 (x : Nat) : Nat := rotr 17 x ^^^ rotr 19 x ^^^ x / 1024

/-- Σ₀ compression function. -/
def bigSigma0 (x : Nat) : Nat := rotr 2 x ^^^ rotr 13 x ^^^ rotr 22 x

/-- Σ₁ compression function. -/
def bigSigma1 (x : Nat) : Nat := rotr 6 x ^^^ rotr 11 x ^^^ rotr 25 x

/-- Ch(x, y, z). -/
def shaCh (x y z : Nat) : Nat := x &&& y ^^^ (0xffffffff ^^^ x) &&& z

/-- Maj(x, y, z). -/
def shaMaj (x y z : Nat) : Nat := x &&& y ^^^ x &&& z ^^^ y &&& z

/-- Big-endian bytes of a number, fixed width. -/
def beBytes : Nat → Nat → List Nat
  | 0, _ => []
  | k + 1, n => beBytes k (n / 256) ++ [n % 256]

/-- Big-endian 32-bit words from a byte list. -/
def toWords : List Nat → List Nat
  | b1 :: b2 :: b3 :: b4 :: rest =>
    (b1 * 16777216 + b2 * 65536 + b3 * 256 + b4) :: toWords rest
  | _ => []

/-- Extension of the 16-word block to the 64-word message schedule (`k` rounds left). -/
def extendWords (ws : List Nat) : Nat → List Nat
  | 0 => ws
  | k + 1 =>
    extendWords
      (ws ++ [w32 (sigma1 (ws.getD (ws.length - 2) 0) + ws.getD (ws.length - 7) 0
        + sigma0 (ws.getD (ws.length - 15) 0) + ws.getD (ws.length - 16) 0)]) k

/-- The SHA-256 compression loop over (round constant, schedule word) pairs. -/
def compressLoop (st : List Nat) : List (Nat × Nat) → List Nat
  | [] => st
  | (k, w) :: rest =>
    match st with
    | [a, b, c, d, e, f, g, h] =>
      let t1 := w32 (h + bigSigma1 e + shaCh e f g + k + w)
      let t2 := w32 (bigSigma0 a + shaMaj a b c)
      compressLoop [w32 (t1 + t2), a, b, c, w32 (d + t1), e, f, g] rest
    | _ => st

/-- Folding the compression function over successive 16-word blocks. -/
def processBlocks (hs ws : List Nat) : List Nat :=
  if ws.isEmpty then hs
  else
    let compressed := compressLoop hs (shaK.zip (extendWords (ws.take 16) 48))
    processBlocks (hs.zipWith (fun x y => w32 (x + y)) compressed) (ws.drop 16)
termination_by ws.length
decreasing_by
  rename_i h
  simp only [List.length_drop]
  have hpos : 0 < ws.length := List.length_pos.mpr (by simpa using h)
  omega

/-- SHA-256 of a byte list, as 32 bytes. -/
def sha256 (msg : List Nat) : List Nat :=
  let L := msg.length
  let padded := msg ++ 0x80 :: List.replicate ((119 - L % 64) % 64) 0 ++ beBytes 8 (L * 8)
  ((processBlocks shaH0 (toWords padded)).map (beBytes 4)).flatten

/-- HMAC-SHA256 (RFC 2104) of a message under a key, both byte lists. -/
def hmacSha256 (key msg : List Nat) : List Nat :=
  let k0 := if key.length > 64 then sha256 key else key
  let kp := k0 ++ List.replicate (64 - k0.length) 0
  sha256 (kp.map (· ^^^ 0x5c) ++ sha256 (kp.map (· ^^^ 0x36) ++ msg))

/-- Lowercase hexadecimal rendering of a byte list (`digest().toString('hex')`). -/
def hexBytes (bs : List Nat) : JStr :=
  (bs.map fun b => [hexDigit (b / 16), hexDigit (b % 16)]).flatten

/-- `ApiXClient.generateSignature(key, endpointPath, dateString, nonce, method, httpBody)`:
the hex HMAC-SHA256, under the UTF-8 bytes of `key`, of the UTF-8 bytes of the
canonical message. -/
def generateSignature (key endpointPath dateString nonce : JStr) (method : HttpMethod)
    (httpBody : List (JStr × Json) := []) : JStr :=
  hexBytes (hmacSha256 (utf8Encode key)
    (utf8Encode (canonicalMessage endpointPath method nonce dateString httpBody)))

/-! ### Reordering of object keys

Two JavaScript objects are the same logical value when one arises from the other by
permuting the insertion order of keys, at the top level and inside nested objects.
We capture this by a normalization function that recursively sorts every object by
key: two well-formed values are insertion-order variants of one another exactly when
they normalize identically. -/

/-- Sorting of an association list ascending by key. -/
def sortByKey (l : List (JStr × Json)) : List (JStr × Json) :=
  List.insertionSort (fun p q => p.1 ≤ q.1) l

mutual

/-- Normalization: every object's field list recursively sorted by key. -/
def Json.norm : Json → Json
  | .str s => .str s
  | .num n => .num n
  | .bool b => .bool b
  | .null => .null
  | .arr es => .arr (Json.normList es)
  | .obj fs => .obj (sortByKey (Json.normFields fs))

/-- Normalization of each element of an array. -/
def Json.normList : List Json → List Json
  | [] => []
  | e :: es => e.norm :: Json.normList es

/-- Normalization of each value of a field list. -/
def Json.normFields : List (JStr × Json) → List (JStr × Json)
  | [] => []
  | (k, v) :: fs => (k, v.norm) :: Json.normFields fs

end

/-! ### Serialization as the specification words it

Claim C2 describes the serialized body as "the JSON body serialized with object
keys sorted lexicographically".  The following serializer is written from those
words: every key of every object is kept, each object's members appear in
ascending key order. -/

/-- Sorting of serialized fields ascending by key. -/
def sortSerByKey (l : List (JStr × JStr)) : List (JStr × JStr) :=
  List.insertionSort (fun p q => p.1 ≤ q.1) l

/-- Rendering of one already-serialized member. -/
def memberStr (p : JStr × JStr) : JStr := quoteJson p.1 ++ 58 :: p.2

mutual

/-- Serialization with every object's keys kept and sorted lexicographically,
the reading of the specification sentence quoted by claim C2. -/
def Json.sortedSer : Json → JStr
  | .str s => quoteJson s
  | .num n => jstr (toString n)
  | .bool b => if b then jstr "true" else jstr "false"
  | .null => jstr "null"
  | .arr es => 91 :: joinComma (Json.sortedSerList es) ++ [93]
  | .obj fs => 123 :: joinComma ((sortSerByKey (Json.sortedSerFields fs)).map memberStr) ++ [125]

/-- Sorted-key serializations of the elements of an array. -/
def Json.sortedSerList : List Json → List JStr
  | [] => []
  | e :: es => e.sortedSer :: Json.sortedSerList es

/-- Sorted-key serialization of each value of a field list. -/
def Json.sortedSerFields : List (JStr × Json) → List (JStr × JStr)
  | [] => []
  | (k, v) :: fs => (k, v.sortedSer) :: Json.sortedSerFields fs

end

/-- The canonical message as claim C2 words it: the same dot-join, but with the
body serialized by `Json.sortedSer` (every key kept, sorted lexicographically),
empty when there is no body. -/
def canonicalMessageSpec (endpointPath : JStr) (method : HttpMethod)
    (nonce dateString : JStr) (httpBody : List (JStr × Json)) : JStr :=
  endpointPath ++ dot ++ method.toJStr ++ dot ++ nonce ++ dot ++ dateString ++ dot ++
    (if httpBody.isEmpty then [] else base64Encode (latin1Bytes (Json.sortedSer (.obj httpBody))))

mutual

/-- No object occurs anywhere inside the value (scalars and arrays of such). -/
def Json.objFree : Json → Bool
  | .str _ => true
  | .num _ => true
  | .bool _ => true
  | .null => true
  | .arr es => Json.objFreeList es
  | .obj _ => false

/-- Every element of the list is object-free. -/
def Json.objFreeList : List Json → Bool
  | [] => true
  | e :: es => e.objFree && Json.objFreeList es

end

/-- All values of a field list are object-free. -/
def valuesObjFree : List (JStr × Json) → Bool
  | [] => true
  | (_, v) :: fs => v.objFree && valuesObjFree fs

/-! ### Acceptance-sequence expected responses (`TestSequenceRunner` data) -/

/-- An `ApiXResponse` as compared by the acceptance sequences: an HTTP status
code plus the JSON body. -/
structure ApiXResponse where
  statusCode : Nat
  data : Json

/-- Expected response of the replayed-request sequence: repeating the previous
signed request verbatim. -/
def replayExpectedResponse : ApiXResponse :=
  { statusCode := 401,
    data := .obj [(jstr "success", .bool false),
                  (jstr "message", .str (jstr "This request is not valid."))] }

/-- Expected response of the stale-request sequence: a request sent after a
10 second delay. -/
def staleExpectedResponse : ApiXResponse :=
  { statusCode := 401,
    data := .obj [(jstr "success", .bool false),
                  (jstr "message", .str (jstr "This request is not valid."))] }

/-- Expected response of the tampered-signature sequence: the `x-signature`
header overwritten with `invalidSignature`. -/
def invalidSignatureExpectedResponse : ApiXResponse :=
  { statusCode := 401,
    data := .obj [(jstr "success", .bool false),
                  (jstr "message", .str (jstr "This request is not valid."))] }

/-- Expected response of the add-quote sequence whose body fails validation. -/
def addQuoteInvalidBodyExpectedResponse : ApiXResponse :=
  { statusCode := 400,
    data := .obj [(jstr "success", .bool false),
                  (jstr "message", .str (jstr "Invalid request. Invalid HTTP body."))] }

/-! ### Access-level evaluation (`TestAccessLevelEvaluator`, `getAuthToken`) -/

/-- Claims carried by a verified session token: the subject identity.  The
session-verification collaborator (`jwt.verify`) yields such claims for a valid
token and nothing for an invalid or expired one; we pass it in as a function. -/
structure JwtClaims where
  username : JStr

/-- JavaScript `String.prototype.split` with a one-unit separator. -/
def splitUnits (sep : Nat) : JStr → List JStr
  | [] => [[]]
  | u :: rest =>
    match splitUnits sep rest with
    | [] => [[u]]
    | s :: ss => if u = sep then [] :: s :: ss else (u :: s) :: ss

/-- The helper `` getAuthToken = (req) => req.header(HttpHeaders.AuthToken)?.split(' ')[1] ``:
from the auth-token header value, the part after the first space, when present. -/
def getAuthToken (authHeader : Option JStr) : Option JStr :=
  match authHeader with
  | none => none
  | some h => (splitUnits 32 h)[1]?

/-- `TestAccessLevelEvaluator.isAuthenticatedRequestor`: look up the bearer token;
when it is truthy (present and non-empty), the requestor is authenticated exactly
when `verifyToken` yields claims; otherwise false. -/
def isAuthenticatedRequestor (verifyToken : JStr → Option JwtClaims)
    (authHeader : Option JStr) : Bool :=
  match getAuthToken authHeader with
  | some t => if t.isEmpty then false else (verifyToken t).isSome
  | none => false

/-- The access levels of the core. -/
inductive AccessLevel : Type where
  | Public
  | Authenticated
deriving DecidableEq

/-- Modelled from the spec: the `AccessLevelEvaluator` base class of `@evlt/apix`
is not part of this repository; per §4.4 it is a "pure function of request state →
\x7bPublic, Authenticated\x7d" that yields Authenticated precisely when the
subclass hook `isAuthenticatedRequestor` holds, and Public otherwise. -/
def evaluateAccessLevel (verifyToken : JStr → Option JwtClaims)
    (authHeader : Option JStr) : AccessLevel :=
  if isAuthenticatedRequestor verifyToken authHeader then .Authenticated else .Public

/-! ### Quotes data and endpoints (`TestDataManager`, `QuotesEndpointGenerator`) -/

/-- A quote record. -/
structure Quote where
  id : JStr
  content : JStr
  author : JStr
  date : JStr
  ownerUserId : JStr
deriving DecidableEq

/-- The quote store `QUOTES`, an insertion-ordered object keyed by quote id. -/
abbrev QuoteStore := List (JStr × Quote)

/-- The body of a quote-deletion request (`DeleteQuoteSchema`). -/
structure DeleteQuoteBody where
  quoteId : JStr
deriving DecidableEq

/-- `QuotesEndpointGenerator.owns`, the `@OwnerEvaluator` of the quotes endpoints:
returns false when the request has no JSON body object; otherwise it looks up the
target quote and, when a truthy bearer token is present, compares the verified
username claim with the owner of the quote (false when the quote is absent); with
no truthy token it returns true.  Reading `claim.username` after `verifyToken`
yielded nothing would throw a TypeError, modelled as `Except.error`. -/
def QuotesEndpointGenerator.owns (getQuoteWithId : JStr → Option Quote)
    (verifyToken : JStr → Option JwtClaims) (authHeader : Option JStr)
    (jsonBody : Option DeleteQuoteBody) : Except Unit Bool :=
  match jsonBody with
  | none => .ok false
  | some body =>
    let quote := getQuoteWithId body.quoteId
    match getAuthToken authHeader with
    | some t =>
      if t.isEmpty then .ok true
      else
        match verifyToken t with
        | some claim => .ok (decide (some claim.username = quote.map Quote.ownerUserId))
        | none => .error ()
    | none => .ok true

/-- Per-endpoint ownership gate outcomes. -/
inductive OwnershipGate : Type where
  | proceed
  | forbidden
deriving DecidableEq

/-- Modelled from the spec: the registry dispatch of `@evlt/apix` is not part of
this repository; per §4.5, "Failing ownership resolves to [Rejected: forbidden]",
and a passing evaluator lets the call proceed. -/
def gateOwnership (ownsResult : Bool) : OwnershipGate :=
  if ownsResult then .proceed else .forbidden

/-- The body of an add-quote request (`AddQuoteSchema`): fields may be absent. -/
structure AddQuoteBody where
  content : Option JStr
  author : Option JStr
  date : Option JStr

/-- Membership in the character class `[a-zA-Z0-9?.;,! ]`. -/
def addQuoteAllowedUnit (u : Nat) : Bool :=
  (97 ≤ u && u ≤ 122) || (65 ≤ u && u ≤ 90) || (48 ≤ u && u ≤ 57)
    || u == 63 || u == 46 || u == 59 || u == 44 || u == 33 || u == 32

/-- JavaScript `/^[a-zA-Z0-9?.;,! ]+$/.test(s)`: the whole string is a non-empty
run of allowed characters. -/
def addQuoteRegexTest (s : JStr) : Bool := !s.isEmpty && s.all addQuoteAllowedUnit

/-- `AddQuoteSchemaValidator.isValid`: author, content and date defined, author and
content matching the allow-list regex, date non-empty. -/
def AddQuoteSchemaValidator.isValid (body : AddQuoteBody) : Bool :=
  body.author.isSome && body.content.isSome && body.date.isSome
    && addQuoteRegexTest (body.author.getD [])
    && addQuoteRegexTest (body.content.getD [])
    && decide ((body.date.getD []).length > 0)

/-- The add-quote body of the invalid-body acceptance sequence. -/
def gamoraInvalidBody : AddQuoteBody :=
  { content := some (jstr "Why is Gamora?---***"),
    author := some (jstr "Drax the Destroyer"),
    date := some (jstr "2018") }

/-- Outcome of the body-validation pipeline stage. -/
inductive BodyGate : Type where
  | runHandler
  | reject (statusCode : Nat)
deriving DecidableEq

/-- Modelled from the spec: the validation pipeline of `@evlt/apix` is not part of
this repository; per §4.6 step 5, when the endpoint requires a body, a body failing
the declared validator yields a 400-class error and the handler is not invoked. -/
def bodyValidationGate (requiresBody validatorResult : Bool) : BodyGate :=
  if requiresBody && !validatorResult then .reject 400 else .runHandler

/-! ### Nonce generation (`ApiXClient.generateNonce`) -/

/-- The alphanumeric alphabet of `generateNonce`. -/
def nonceCharacters : JStr :=
  jstr "ABCDEFGHIJKLMNOPQRSTUVWXYZabcdefghijklmnopqrstuvwxyz0123456789"

/-- `ApiXClient.generateNonce(length)`: one character of the alphabet per loop
iteration.  Each iteration draws `Math.floor(Math.random() * characters.length)`,
a value in `[0, 62)`; the draw sequence is passed in as a function. -/
def generateNonce (draws : Nat → Fin 62) (length : Nat := 16) : JStr :=
  (List.range length).map fun i => nonceCharacters.getD (draws i) 0

/-! ### Quote store operations (`TestDataManager`) -/

/-- The initial `QUOTES` record. -/
def initialQuotes : QuoteStore :=
  [(jstr "0", ⟨jstr "0", jstr "I think, therefore I am.",
      jstr "René Descartes", jstr "1637", jstr "apix@evoluti.us"⟩),
   (jstr "1", ⟨jstr "1", jstr "The only thing we have to fear is fear itself.",
      jstr "Franklin D. Roosevelt", jstr "March 4, 1933", jstr "apix@evoluti.us"⟩),
   (jstr "2", ⟨jstr "2", jstr "To be, or not to be, that is the question.",
      jstr "William Shakespeare", jstr "1600", jstr "apix@evoluti.us"⟩),
   (jstr "3", ⟨jstr "3", jstr "The unexamined life is not worth living.",
      jstr "Socrates", jstr "399 BCE", jstr "apix@evoluti.us"⟩),
   (jstr "4", ⟨jstr "4", jstr "Give me liberty, or give me death!",
      jstr "Patrick Henry", jstr "March 23, 1775", jstr "apix@evoluti.us"⟩),
   (jstr "5", ⟨jstr "5", jstr "Hisashiburi da na, Mugiwara.",
      jstr "Crocodile", jstr "800 PVC", jstr "apix@evoluti.us"⟩),
   (jstr "6", ⟨jstr "6", jstr "Injustice anywhere is a thread to justice everywhere.",
      jstr "Martin Luther King Jr.", jstr "April 16, 1963", jstr "apix@evoluti.us"⟩),
   (jstr "7", ⟨jstr "7", jstr "I went to the woods because I wished to live deliberately, to front only the essential facts of life, and see if I could not learn what it had to teach, and not, when I came to die, discover that I had not lived.",
      jstr "Henry David Thoreau", jstr "1854", jstr "apix@evoluti.us"⟩),
   (jstr "8", ⟨jstr "8", jstr "All the world’s a stage, and all the men and women merely players.",
      jstr "William Shakespeare", jstr "1599", jstr "apix@evoluti.us"⟩)]

/-- `TestDataManager.deleteQuote`: when `QUOTES[id]` is present (a quote object is
truthy) the property is removed, otherwise an error with the message
`` `No quote with ID ${id} found.` `` is thrown. -/
def deleteQuote (quotes : QuoteStore) (id : JStr) : Except JStr QuoteStore :=
  match List.lookup id quotes with
  | some _ => .ok (quotes.filter fun p => !(p.1 == id))
  | none => .error (jstr "No quote with ID " ++ id ++ jstr " found.")

/-- A handler return value: an optional explicit status plus the JSON payload. -/
structure HandlerResponse where
  status : Option Nat
  data : Json

/-- `QuotesEndpointGenerator.deleteQuote`, the delete-quote request handler: it
tries `deleteQuote` and returns a success payload; a thrown error is caught and
converted into a 404 envelope carrying the error message. -/
def deleteQuoteHandler (quotes : QuoteStore) (quoteId : JStr) :
    QuoteStore × HandlerResponse :=
  match deleteQuote quotes quoteId with
  | .ok quotes2 =>
    (quotes2,
     { status := none,
       data := .obj [(jstr "success", .bool true),
                     (jstr "message", .str (jstr "Successfully deleted quote with ID " ++ quoteId))] })
  | .error msg =>
    (quotes,
     { status := some 404,
       data := .obj [(jstr "success", .bool false),
                     (jstr "error", .obj [(jstr "id", .str (jstr "NotFound")),
                                          (jstr "message", .str msg)])] })

/-- Decimal rendering of a count (JS template interpolation of a number). -/
def natToJStr (n : Nat) : JStr := jstr (toString n)

/-- JavaScript property assignment `QUOTES[id] = quote`: an existing key is
overwritten in place, a new key is appended. -/
def setKey (quotes : QuoteStore) (id : JStr) (q : Quote) : QuoteStore :=
  if quotes.any (fun p => p.1 == id) then
    quotes.map fun p => if p.1 == id then (id, q) else p
  else quotes ++ [(id, q)]

/-- `TestDataManager.addQuote`: the new id is `` `${Object.keys(QUOTES).length}` ``,
the decimal string of the current number of stored quotes; the owner is `newb`;
the quote is stored under that id and returned. -/
def addQuote (quotes : QuoteStore) (content author date : JStr) : QuoteStore × Quote :=
  let id := natToJStr quotes.length
  let q : Quote := ⟨id, content, author, date, jstr "newb"⟩
  (setKey quotes id q, q)

instance : IsTotal (JStr × JStr) (fun p q => p.1 ≤ q.1) :=
  ⟨fun a b => le_total a.1 b.1⟩

instance : IsTrans (JStr × JStr) (fun p q => p.1 ≤ q.1) :=
  ⟨fun _ _ _ => le_trans⟩

/-! ## Lemmas

Serialization only consults objects through key lookup, so reordering fields of a
duplicate-free object cannot change it. -/

/-- Lookup in an association list with duplicate-free keys is invariant under
permutation. -/
theorem lookup_eq_of_perm {β : Type} (k : JStr) {l₁ l₂ : List (JStr × β)}
    (hp : l₁.Perm l₂) (hn : (l₁.map Prod.fst).Nodup) :
    List.lookup k l₁ = List.lookup k l₂ := by
  induction hp with
  | nil => rfl
  | cons x p ih =>
    by_cases hkx : k = x.1
    · simp [List.lookup, hkx]
    · simp only [List.map_cons, List.nodup_cons] at hn
      simp [List.lookup, beq_false_of_ne hkx, ih hn.2]
  | swap x y l =>
    simp only [List.map_cons, List.nodup_cons, List.mem_cons] at hn
    have hxy : y.1 ≠ x.1 := fun h => hn.1 (Or.inl h)
    by_cases hky : k = y.1
    · subst hky
      simp [List.lookup, beq_false_of_ne hxy]
    · by_cases hkx : k = x.1
      · subst hkx
        simp [List.lookup, beq_false_of_ne (Ne.symm hxy), beq_false_of_ne hky]
      · simp [List.lookup, beq_false_of_ne hkx, beq_false_of_ne hky]
  | trans p₁ p₂ ih₁ ih₂ =>
    exact (ih₁ hn).trans (ih₂ ((p₁.map Prod.fst).nodup hn))

/-- Lookup commutes with per-value serialization of the fields. -/
theorem lookup_serFields (pl : List JStr) (k : JStr) (fs : List (JStr × Json)) :
    List.lookup k (Json.serFields pl fs) = (List.lookup k fs).map (Json.ser pl) := by
  induction fs with
  | nil => rfl
  | cons p fs ih =>
    obtain ⟨k2, v⟩ := p
    by_cases h : k = k2
    · simp [Json.serFields, List.lookup, h]
    · simp [Json.serFields, List.lookup, beq_false_of_ne h, ih]

/-- Normalizing the values of a field list keeps the keys. -/
theorem keys_normFields (fs : List (JStr × Json)) :
    (Json.normFields fs).map Prod.fst = fs.map Prod.fst := by
  induction fs with
  | nil => rfl
  | cons p fs ih =>
    obtain ⟨k, v⟩ := p
    simp [Json.normFields, ih]

/-- Sorting fields by key is a permutation. -/
theorem sortByKey_perm (l : List (JStr × Json)) : (sortByKey l).Perm l :=
  List.perm_insertionSort _ l

mutual

/-- Serializing a normalized well-formed value, under any property list, gives the
same string as serializing the value itself. -/
theorem Json.ser_norm : ∀ (v : Json), Json.wf v = true →
    ∀ pl, Json.ser pl (Json.norm v) = Json.ser pl v
  | .str _, _, _ => rfl
  | .num _, _, _ => rfl
  | .bool _, _, _ => rfl
  | .null, _, _ => rfl
  | .arr es, h, pl => by
    simp only [Json.norm, Json.ser]
    rw [Json.serList_normList es (by simpa [Json.wf] using h) pl]
  | .obj fs, h, pl => by
    simp only [Json.wf, Bool.and_eq_true, decide_eq_true_eq] at h
    have hnodup : ((Json.normFields fs).map Prod.fst).Nodup := by
      rw [keys_normFields]; exact h.1
    have hlook : ∀ k, List.lookup k (sortByKey (Json.normFields fs)) =
        List.lookup k (Json.normFields fs) :=
      fun k => (lookup_eq_of_perm k (sortByKey_perm _).symm hnodup).symm
    simp only [Json.norm, Json.ser]
    have harr : arrange pl (Json.serFields pl (sortByKey (Json.normFields fs))) =
        arrange pl (Json.serFields pl (Json.normFields fs)) := by
      unfold arrange
      apply List.filterMap_congr
      intro k _
      rw [lookup_serFields, lookup_serFields, hlook k]
    rw [harr, Json.serFields_normFields fs h.2 pl]

/-- Serializing normalized array elements gives the same strings. -/
theorem Json.serList_normList : ∀ (es : List Json), Json.wfList es = true →
    ∀ pl, Json.serList pl (Json.normList es) = Json.serList pl es
  | [], _, _ => rfl
  | e :: es, h, pl => by
    simp only [Json.wfList, Bool.and_eq_true] at h
    simp only [Json.normList, Json.serList]
    rw [Json.ser_norm e h.1 pl, Json.serList_normList es h.2 pl]

/-- Serializing normalized field values gives the same pairs. -/
theorem Json.serFields_normFields : ∀ (fs : List (JStr × Json)), Json.wfFields fs = true →
    ∀ pl, Json.serFields pl (Json.normFields fs) = Json.serFields pl fs
  | [], _, _ => rfl
  | (k, v) :: fs, h, pl => by
    simp only [Json.wfFields, Bool.and_eq_true] at h
    simp only [Json.normFields, Json.serFields]
    rw [Json.ser_norm v h.1 pl, Json.serFields_normFields fs h.2 pl]

end

/-- Key permutation invariance of the whole body pipeline: two well-formed bodies
normalizing identically have permuted key lists, equal sorted key lists, and equal
serializations, hence equal base64 renderings. -/
theorem httpBodyBase64_eq_of_norm {fs fs2 : List (JStr × Json)}
    (h1 : Json.wf (.obj fs) = true) (h2 : Json.wf (.obj fs2) = true)
    (hnorm : Json.norm (.obj fs) = Json.norm (.obj fs2)) :
    httpBodyBase64 fs = httpBodyBase64 fs2 := by
  simp only [Json.norm, Json.obj.injEq] at hnorm
  have hkeys : (fs.map Prod.fst).Perm (fs2.map Prod.fst) := by
    have p1 : (fs.map Prod.fst).Perm ((sortByKey (Json.normFields fs)).map Prod.fst) := by
      rw [← keys_normFields fs]
      exact ((sortByKey_perm (Json.normFields fs)).map Prod.fst).symm
    have p2 : ((sortByKey (Json.normFields fs2)).map Prod.fst).Perm (fs2.map Prod.fst) := by
      rw [← keys_normFields fs2]
      exact (sortByKey_perm (Json.normFields fs2)).map Prod.fst
    rw [hnorm] at p1
    exact p1.trans p2
  have hsorted : sortKeys (fs.map Prod.fst) = sortKeys (fs2.map Prod.fst) := by
    apply List.eq_of_perm_of_sorted (r := (· ≤ ·))
    · exact (List.perm_insertionSort _ _).trans (hkeys.trans (List.perm_insertionSort _ _).symm)
    · exact List.sorted_insertionSort _ _
    · exact List.sorted_insertionSort _ _
  have hser : stringifyBody fs = stringifyBody fs2 := by
    unfold stringifyBody
    rw [hsorted]
    rw [← Json.ser_norm (.obj fs) h1, ← Json.ser_norm (.obj fs2) h2]
    simp only [Json.norm]
    rw [hnorm]
  have hlen : fs.length = fs2.length := by
    have := hkeys.length_eq
    simpa using this
  have hemp : fs.isEmpty = fs2.isEmpty := by
    cases fs <;> cases fs2 <;> simp_all
  unfold httpBodyBase64 stringifiedJsonBody
  rw [hemp, hser]

mutual

/-- On object-free values the property list is never consulted, so the replacer
serializer and the sorted-keys serializer agree. -/
theorem Json.ser_objFree : ∀ (v : Json), Json.objFree v = true →
    ∀ pl, Json.ser pl v = Json.sortedSer v
  | .str _, _, _ => rfl
  | .num _, _, _ => rfl
  | .bool _, _, _ => rfl
  | .null, _, _ => rfl
  | .arr es, h, pl => by
    simp only [Json.ser, Json.sortedSer]
    rw [Json.serList_objFree es (by simpa [Json.objFree] using h) pl]
  | .obj fs, h, _ => by simp [Json.objFree] at h

/-- Elementwise version of `Json.ser_objFree` for arrays. -/
theorem Json.serList_objFree : ∀ (es : List Json), Json.objFreeList es = true →
    ∀ pl, Json.serList pl es = Json.sortedSerList es
  | [], _, _ => rfl
  | e :: es, h, pl => by
    simp only [Json.objFreeList, Bool.and_eq_true] at h
    simp only [Json.serList, Json.sortedSerList]
    rw [Json.ser_objFree e h.1 pl, Json.serList_objFree es h.2 pl]

end

/-- Valuewise version of `Json.ser_objFree` for field lists. -/
theorem serFields_objFree (pl : List JStr) (fs : List (JStr × Json))
    (h : valuesObjFree fs = true) :
    Json.serFields pl fs = Json.sortedSerFields fs := by
  induction fs with
  | nil => rfl
  | cons p fs ih =>
    obtain ⟨k, v⟩ := p
    simp only [valuesObjFree, Bool.and_eq_true] at h
    simp only [Json.serFields, Json.sortedSerFields]
    rw [Json.ser_objFree v h.1 pl, ih h.2]

/-- Sorted-key serialization of the fields keeps the keys. -/
theorem keys_sortedSerFields (fs : List (JStr × Json)) :
    (Json.sortedSerFields fs).map Prod.fst = fs.map Prod.fst := by
  induction fs with
  | nil => rfl
  | cons p fs ih =>
    obtain ⟨k, v⟩ := p
    simp [Json.sortedSerFields, ih]

/-- Looking each of a duplicate-free list's own keys up in the list reproduces the
list, member by member. -/
theorem lookup_map_self (s : List (JStr × JStr)) (hs : (s.map Prod.fst).Nodup) :
    (s.map Prod.fst).filterMap
      (fun k => (List.lookup k s).map fun sv => quoteJson k ++ 58 :: sv) =
      s.map memberStr := by
  induction s with
  | nil => rfl
  | cons p rest ih =>
    obtain ⟨k0, v0⟩ := p
    simp only [List.map_cons, List.nodup_cons] at hs
    simp only [List.map_cons]
    rw [List.filterMap_cons]
    have h0 : List.lookup k0 ((k0, v0) :: rest) = some v0 := by simp [List.lookup]
    rw [h0]
    have hcongr : ∀ k ∈ rest.map Prod.fst,
        (List.lookup k ((k0, v0) :: rest)).map (fun sv => quoteJson k ++ 58 :: sv) =
          (List.lookup k rest).map (fun sv => quoteJson k ++ 58 :: sv) := by
      intro k hk
      have hne : k ≠ k0 := fun e => hs.1 (e ▸ hk)
      simp [List.lookup, beq_false_of_ne hne]
    rw [List.filterMap_congr hcongr, ih hs.2]
    rfl

/-- With duplicate-free keys, looking the sorted key list up in the member list
yields exactly the members sorted by key. -/
theorem arrange_sorted (m : List (JStr × JStr)) (hm : (m.map Prod.fst).Nodup) :
    arrange (sortKeys (m.map Prod.fst)) m = (sortSerByKey m).map memberStr := by
  have hperm : (sortSerByKey m).Perm m := List.perm_insertionSort _ m
  have hnodup2 : ((sortSerByKey m).map Prod.fst).Nodup :=
    ((hperm.map Prod.fst).symm).nodup hm
  have hkeys : (sortSerByKey m).map Prod.fst = sortKeys (m.map Prod.fst) := by
    apply List.eq_of_perm_of_sorted (r := (· ≤ ·))
    · exact (hperm.map Prod.fst).trans (List.perm_insertionSort _ _).symm
    · have hs : List.Sorted (fun p q : JStr × JStr => p.1 ≤ q.1) (sortSerByKey m) :=
        List.sorted_insertionSort _ m
      exact List.pairwise_map.mpr hs
    · exact List.sorted_insertionSort _ _
  have hl : ∀ k ∈ (sortSerByKey m).map Prod.fst,
      (List.lookup k m).map (fun sv => quoteJson k ++ 58 :: sv) =
        (List.lookup k (sortSerByKey m)).map (fun sv => quoteJson k ++ 58 :: sv) := by
    intro k _
    rw [lookup_eq_of_perm k hperm.symm hm]
  rw [← hkeys]
  unfold arrange
  rw [List.filterMap_congr hl]
  exact lookup_map_self _ hnodup2

/-- For a well-formed body none of whose values contains an object, the replacer
serialization coincides with the all-keys-sorted serialization of claim C2. -/
theorem stringifyBody_objFree (fs : List (JStr × Json))
    (hwf : Json.wf (.obj fs) = true) (hfree : valuesObjFree fs = true) :
    stringifyBody fs = Json.sortedSer (.obj fs) := by
  simp only [Json.wf, Bool.and_eq_true, decide_eq_true_eq] at hwf
  unfold stringifyBody
  simp only [Json.ser, Json.sortedSer]
  rw [serFields_objFree _ _ hfree]
  have hm : ((Json.sortedSerFields fs).map Prod.fst).Nodup := by
    rw [keys_sortedSerFields]; exact hwf.1
  have harr := arrange_sorted (Json.sortedSerFields fs) hm
  rw [keys_sortedSerFields] at harr
  rw [harr]

/-- Decomposition of a list around an occurrence of `c` preceded by `c`-free
prefixes is unique. -/
theorem split_first {c : Nat} {u : List Nat} : ∀ {u' v v' : List Nat},
    c ∉ u → c ∉ u' → u ++ c :: v = u' ++ c :: v' → u = u' ∧ v = v' := by
  induction u with
  | nil =>
    intro u' v v' _ hu' h
    cases u' with
    | nil => simpa using h
    | cons a' t' =>
      simp only [List.nil_append, List.cons_append, List.cons.injEq] at h
      obtain ⟨rfl, -⟩ := h
      exact absurd (List.mem_cons_self _ _) hu'
  | cons a t ih =>
    intro u' v v' hu hu' h
    cases u' with
    | nil =>
      simp only [List.nil_append, List.cons_append, List.cons.injEq] at h
      obtain ⟨rfl, -⟩ := h
      exact absurd (List.mem_cons_self _ _) hu
    | cons a' t' =>
      simp only [List.cons_append, List.cons.injEq] at h
      have hrec := ih (fun hm => hu (List.mem_cons_of_mem a hm))
        (fun hm => hu' (List.mem_cons_of_mem a' hm)) h.2
      exact ⟨by rw [h.1, hrec.1], hrec.2⟩

/-- Decomposition of a list around an occurrence of `c` followed by `c`-free
suffixes is unique. -/
theorem split_last {c : Nat} {u u' v v' : List Nat}
    (hv : c ∉ v) (hv' : c ∉ v') (h : u ++ c :: v = u' ++ c :: v') :
    u = u' ∧ v = v' := by
  have h2 : v.reverse ++ c :: u.reverse = v'.reverse ++ c :: u'.reverse := by
    have h3 := congrArg List.reverse h
    simpa [List.reverse_append, List.append_assoc] using h3
  have hres := split_first (by simpa using hv) (by simpa using hv') h2
  constructor
  · have h4 := congrArg List.reverse hres.2
    simpa using h4
  · have h5 := congrArg List.reverse hres.1
    simpa using h5

/-- No base64 alphabet character is the delimiter dot. -/
theorem b64Char_ne_dot (n : Nat) : b64Char n ≠ 46 := by
  by_cases h : n < 64
  · have hall : ∀ m, m < 64 → b64Char m ≠ 46 := by decide
    exact hall n h
  · have hlen : b64Alphabet.length ≤ n := by
      have h64 : b64Alphabet.length = 64 := by decide
      omega
    have hnone : b64Alphabet[n]? = none := List.getElem?_eq_none hlen
    simp [b64Char, List.getD, hnone]

/-- Base64 output never contains the delimiter dot. -/
theorem base64_ne_dot : ∀ (bs : List Nat), ∀ x ∈ base64Encode bs, x ≠ 46
  | [] => by simp [base64Encode]
  | [b1] => by
    intro x hx
    simp only [base64Encode, List.mem_cons, List.not_mem_nil, or_false] at hx
    rcases hx with rfl | rfl | rfl | rfl
    · exact b64Char_ne_dot _
    · exact b64Char_ne_dot _
    · decide
    · decide
  | [b1, b2] => by
    intro x hx
    simp only [base64Encode, List.mem_cons, List.not_mem_nil, or_false] at hx
    rcases hx with rfl | rfl | rfl | rfl
    · exact b64Char_ne_dot _
    · exact b64Char_ne_dot _
    · exact b64Char_ne_dot _
    · decide
  | b1 :: b2 :: b3 :: rest => by
    intro x hx
    simp only [base64Encode, List.mem_cons] at hx
    rcases hx with rfl | rfl | rfl | rfl | h
    · exact b64Char_ne_dot _
    · exact b64Char_ne_dot _
    · exact b64Char_ne_dot _
    · exact b64Char_ne_dot _
    · exact base64_ne_dot rest x h

/-- The base64-rendered body never contains the delimiter dot. -/
theorem httpBodyBase64_ne_dot (fs : List (JStr × Json)) : 46 ∉ httpBodyBase64 fs := by
  by_cases h : (stringifiedJsonBody fs).isEmpty = true
  · simp [httpBodyBase64, h]
  · rw [Bool.not_eq_true] at h
    simp only [httpBodyBase64, h, Bool.false_eq_true, if_false]
    intro hx
    exact base64_ne_dot _ _ hx rfl

/-- No HTTP method string contains the delimiter dot. -/
theorem methodStr_ne_dot (m : HttpMethod) : 46 ∉ m.toJStr := by
  cases m <;> decide

/-- The method strings are pairwise distinct. -/
theorem methodStr_inj {m m' : HttpMethod} (h : m.toJStr = m'.toJStr) : m = m' := by
  cases m <;> cases m' <;> revert h <;> decide

/-! ## Claim theorems -/

/-- C1: Canonicalization and signing are deterministic.  For any two well-formed
HTTP body objects that are insertion-order variants of one another (they normalize
identically, i.e. one arises from the other by permuting key order at the top level
and inside nested objects), `generateSignature` with the same key, endpoint path,
date string, nonce and method produces the same canonical message and the same hex
signature. -/
theorem generateSignature_deterministic_C1
    (key endpointPath dateString nonce : JStr) (method : HttpMethod)
    (fs fs2 : List (JStr × Json))
    (h1 : Json.wf (.obj fs) = true) (h2 : Json.wf (.obj fs2) = true)
    (hnorm : Json.norm (.obj fs) = Json.norm (.obj fs2)) :
    canonicalMessage endpointPath method nonce dateString fs =
      canonicalMessage endpointPath method nonce dateString fs2 ∧
    generateSignature key endpointPath dateString nonce method fs =
      generateSignature key endpointPath dateString nonce method fs2 := by
  have hb := httpBodyBase64_eq_of_norm h1 h2 hnorm
  have hmsg : canonicalMessage endpointPath method nonce dateString fs =
      canonicalMessage endpointPath method nonce dateString fs2 := by
    unfold canonicalMessage
    rw [hb]
  exact ⟨hmsg, by unfold generateSignature; rw [hmsg]⟩

/-- Witness for C1: the body `\x7bb: 1, a: \x7by: 2, x: 3\x7d\x7d` with its keys
reordered (at both levels) signs identically. -/
theorem generateSignature_deterministic_C1_witness :
    canonicalMessage (jstr "/cache/add") .PUT (jstr "n0nc3") (jstr "Mon, 06 Oct 2025 01:02:03 GMT")
        [(jstr "b", .num 1), (jstr "a", .obj [(jstr "y", .num 2), (jstr "x", .num 3)])] =
      canonicalMessage (jstr "/cache/add") .PUT (jstr "n0nc3") (jstr "Mon, 06 Oct 2025 01:02:03 GMT")
        [(jstr "a", .obj [(jstr "x", .num 3), (jstr "y", .num 2)]), (jstr "b", .num 1)] ∧
    generateSignature (jstr "appKey") (jstr "/cache/add") (jstr "Mon, 06 Oct 2025 01:02:03 GMT")
        (jstr "n0nc3") .PUT
        [(jstr "b", .num 1), (jstr "a", .obj [(jstr "y", .num 2), (jstr "x", .num 3)])] =
      generateSignature (jstr "appKey") (jstr "/cache/add") (jstr "Mon, 06 Oct 2025 01:02:03 GMT")
        (jstr "n0nc3") .PUT
        [(jstr "a", .obj [(jstr "x", .num 3), (jstr "y", .num 2)]), (jstr "b", .num 1)] :=
  generateSignature_deterministic_C1 (jstr "appKey") (jstr "/cache/add")
    (jstr "Mon, 06 Oct 2025 01:02:03 GMT") (jstr "n0nc3") .PUT
    [(jstr "b", .num 1), (jstr "a", .obj [(jstr "y", .num 2), (jstr "x", .num 3)])]
    [(jstr "a", .obj [(jstr "x", .num 3), (jstr "y", .num 2)]), (jstr "b", .num 1)]
    (by decide) (by decide) rfl

/-- C2 counterexample: for the nested body `\x7bb: \x7bx: 1\x7d\x7d` the canonical
message built by `generateSignature` differs from the message described by the
claim (body serialized with all object keys kept, sorted lexicographically): the
array replacer drops the nested key `x`, serializing the body as
`\x7b"b":\x7b\x7d\x7d`. -/
theorem canonicalMessage_C2_counterexample :
    canonicalMessage (jstr "/quotes/add") .PUT (jstr "n0nc3")
        (jstr "Mon, 06 Oct 2025 01:02:03 GMT") [(jstr "b", .obj [(jstr "x", .num 1)])] ≠
      canonicalMessageSpec (jstr "/quotes/add") .PUT (jstr "n0nc3")
        (jstr "Mon, 06 Oct 2025 01:02:03 GMT") [(jstr "b", .obj [(jstr "x", .num 1)])] := by
  decide

/-- C2 amended: the canonical message is the endpoint path, verb, nonce, HTTP-date
and base64 body joined by `.`, and `generateSignature` is the hex HMAC-SHA256 of
its UTF-8 bytes under the shared app secret — but the body serialization keeps, at
every depth, only keys belonging to the sorted top-level key list (the array
replacer), each object's kept members appearing in that list's order; when no value
of the body contains a nested object this coincides with the claimed
all-keys-sorted serialization. -/
theorem generateSignature_amended_C2
    (key endpointPath dateString nonce : JStr) (method : HttpMethod)
    (fs : List (JStr × Json)) :
    canonicalMessage endpointPath method nonce dateString fs =
      endpointPath ++ dot ++ method.toJStr ++ dot ++ nonce ++ dot ++ dateString ++ dot ++
        httpBodyBase64 fs ∧
    generateSignature key endpointPath dateString nonce method fs =
      hexBytes (hmacSha256 (utf8Encode key)
        (utf8Encode (canonicalMessage endpointPath method nonce dateString fs))) ∧
    (Json.wf (.obj fs) = true → valuesObjFree fs = true →
      canonicalMessage endpointPath method nonce dateString fs =
        canonicalMessageSpec endpointPath method nonce dateString fs) := by
  refine ⟨rfl, rfl, fun hwf hfree => ?_⟩
  unfold canonicalMessage canonicalMessageSpec httpBodyBase64 stringifiedJsonBody
  by_cases he : fs.isEmpty
  · simp [he]
  · simp only [he, if_false, Bool.false_eq_true]
    rw [stringifyBody_objFree fs hwf hfree]
    simp [Json.sortedSer]

/-- Witness for C2 amended: the flat `cache/add` body of the acceptance sequence,
`\x7bkey: "myKey", value: 980\x7d`, satisfies the object-free agreement. -/
theorem generateSignature_amended_C2_witness :
    canonicalMessage (jstr "/cache/add") .PUT (jstr "n0nc3")
        (jstr "Mon, 06 Oct 2025 01:02:03 GMT")
        [(jstr "key", .str (jstr "myKey")), (jstr "value", .num 980)] =
      canonicalMessageSpec (jstr "/cache/add") .PUT (jstr "n0nc3")
        (jstr "Mon, 06 Oct 2025 01:02:03 GMT")
        [(jstr "key", .str (jstr "myKey")), (jstr "value", .num 980)] :=
  (generateSignature_amended_C2 (jstr "appKey") (jstr "/cache/add")
    (jstr "Mon, 06 Oct 2025 01:02:03 GMT") (jstr "n0nc3") .PUT
    [(jstr "key", .str (jstr "myKey")), (jstr "value", .num 980)]).2.2
    (by decide) (by decide)

/-- C3 counterexample: two requests that differ in a signable field — a value
inside a nested object of the JSON body — yet produce the same canonical message
and the same signature, because the array replacer drops nested keys. -/
theorem tamper_detection_C3_counterexample :
    [(jstr "a", Json.obj [(jstr "x", Json.num 1)])] ≠
        [(jstr "a", Json.obj [(jstr "x", Json.num 2)])] ∧
    canonicalMessage (jstr "/q") .GET (jstr "n0nc3") (jstr "Mon, 06 Oct 2025 01:02:03 GMT")
        [(jstr "a", .obj [(jstr "x", .num 1)])] =
      canonicalMessage (jstr "/q") .GET (jstr "n0nc3") (jstr "Mon, 06 Oct 2025 01:02:03 GMT")
        [(jstr "a", .obj [(jstr "x", .num 2)])] ∧
    generateSignature (jstr "appKey") (jstr "/q") (jstr "Mon, 06 Oct 2025 01:02:03 GMT")
        (jstr "n0nc3") .GET [(jstr "a", .obj [(jstr "x", .num 1)])] =
      generateSignature (jstr "appKey") (jstr "/q") (jstr "Mon, 06 Oct 2025 01:02:03 GMT")
        (jstr "n0nc3") .GET [(jstr "a", .obj [(jstr "x", .num 2)])] := by
  refine ⟨?_, rfl, rfl⟩
  intro h
  simp only [List.cons.injEq, Prod.mk.injEq, Json.obj.injEq, Json.num.injEq, and_true,
    true_and] at h
  omega

/-- C3 amended: differences in the signable fields are reflected in the canonical
message exactly at the granularity the encoding preserves.  When the nonce and
timestamp contain no `.` delimiter, two requests have equal canonical messages if
and only if they agree on endpoint path, HTTP verb, nonce, timestamp and on the
base64 rendering of the replacer-serialized body; so a flip of path, verb, nonce,
timestamp, or of anything that changes the serialized body forces a different
message, while a flip the replacer-serialization does not see (a nested-object
value) is not detected.  Equal messages trivially give equal signatures; distinct
signatures for distinct messages additionally require the absence of an HMAC
collision, which is not a property of the code. -/
theorem tamper_detection_amended_C3
    (p p' n n' d d' : JStr) (m m' : HttpMethod) (fs fs' : List (JStr × Json))
    (hn : 46 ∉ n) (hn' : 46 ∉ n') (hd : 46 ∉ d) (hd' : 46 ∉ d') :
    canonicalMessage p m n d fs = canonicalMessage p' m' n' d' fs' ↔
      (p = p' ∧ m = m' ∧ n = n' ∧ d = d' ∧ httpBodyBase64 fs = httpBodyBase64 fs') := by
  constructor
  · intro h
    have h1 : (p ++ [46] ++ m.toJStr ++ [46] ++ n ++ [46] ++ d) ++ 46 :: httpBodyBase64 fs =
        (p' ++ [46] ++ m'.toJStr ++ [46] ++ n' ++ [46] ++ d') ++ 46 :: httpBodyBase64 fs' := by
      simpa [canonicalMessage, dot, List.append_assoc] using h
    have s1 := split_last (httpBodyBase64_ne_dot fs) (httpBodyBase64_ne_dot fs') h1
    have h2 : (p ++ [46] ++ m.toJStr ++ [46] ++ n) ++ 46 :: d =
        (p' ++ [46] ++ m'.toJStr ++ [46] ++ n') ++ 46 :: d' := by
      simpa [List.append_assoc] using s1.1
    have s2 := split_last hd hd' h2
    have h3 : (p ++ [46] ++ m.toJStr) ++ 46 :: n = (p' ++ [46] ++ m'.toJStr) ++ 46 :: n' := by
      simpa [List.append_assoc] using s2.1
    have s3 := split_last hn hn' h3
    have h4 : p ++ 46 :: m.toJStr = p' ++ 46 :: m'.toJStr := by
      simpa [List.append_assoc] using s3.1
    have s4 := split_last (methodStr_ne_dot m) (methodStr_ne_dot m') h4
    exact ⟨s4.1, methodStr_inj s4.2, s3.2, s2.2, s1.2⟩
  · rintro ⟨rfl, rfl, rfl, rfl, hb⟩
    unfold canonicalMessage
    rw [hb]

/-- Witness for C3 amended: two `GET /cache/myKey` requests with dot-free nonces
`n1` and `n2` have equal canonical messages exactly when the nonces and the other
fields agree. -/
theorem tamper_detection_amended_C3_witness :
    canonicalMessage (jstr "/cache/myKey") .GET (jstr "n1")
        (jstr "Mon, 06 Oct 2025 01:02:03 GMT") [] =
      canonicalMessage (jstr "/cache/myKey") .GET (jstr "n2")
        (jstr "Mon, 06 Oct 2025 01:02:03 GMT") [] ↔
      (jstr "/cache/myKey" = jstr "/cache/myKey" ∧ HttpMethod.GET = HttpMethod.GET ∧
        jstr "n1" = jstr "n2" ∧
        jstr "Mon, 06 Oct 2025 01:02:03 GMT" = jstr "Mon, 06 Oct 2025 01:02:03 GMT" ∧
        httpBodyBase64 [] = httpBodyBase64 []) :=
  tamper_detection_amended_C3 (jstr "/cache/myKey") (jstr "/cache/myKey")
    (jstr "n1") (jstr "n2") (jstr "Mon, 06 Oct 2025 01:02:03 GMT")
    (jstr "Mon, 06 Oct 2025 01:02:03 GMT") .GET .GET [] []
    (by decide) (by decide) (by decide) (by decide)

/-- C4: Oracle resistance — in the acceptance sequences the expected responses for
the replayed request, the request delayed past the freshness window, and the
request with a tampered signature are identical: statusCode 401, success false,
message "This request is not valid.". -/
theorem oracle_resistance_C4 :
    replayExpectedResponse = staleExpectedResponse ∧
    staleExpectedResponse = invalidSignatureExpectedResponse ∧
    replayExpectedResponse.statusCode = 401 ∧
    replayExpectedResponse.data =
      Json.obj [(jstr "success", .bool false),
                (jstr "message", .str (jstr "This request is not valid."))] :=
  ⟨rfl, rfl, rfl, rfl⟩

/-- C5: Access-level evaluation — `isAuthenticatedRequestor` returns true iff the
request carries a syntactically present (truthy) bearer token in the auth-token
header and verifying it against the session-verification collaborator yields
claims; otherwise it returns false and the request resolves to Public. -/
theorem isAuthenticatedRequestor_C5
    (verifyToken : JStr → Option JwtClaims) (authHeader : Option JStr) :
    (isAuthenticatedRequestor verifyToken authHeader = true ↔
      ∃ t, getAuthToken authHeader = some t ∧ t ≠ [] ∧ (verifyToken t).isSome = true) ∧
    (isAuthenticatedRequestor verifyToken authHeader = false ↔
      evaluateAccessLevel verifyToken authHeader = .Public) := by
  constructor
  · constructor
    · intro h
      unfold isAuthenticatedRequestor at h
      cases hg : getAuthToken authHeader with
      | none => rw [hg] at h; exact absurd h (by simp)
      | some t =>
        rw [hg] at h
        by_cases he : t.isEmpty = true
        · simp [he] at h
        · simp [he] at h
          exact ⟨t, rfl, by simpa [List.isEmpty_iff] using he, h⟩
    · rintro ⟨t, hg, hne, hv⟩
      unfold isAuthenticatedRequestor
      rw [hg]
      have he : t.isEmpty = false := by simpa [List.isEmpty_iff] using hne
      simp [he, hv]
  · unfold evaluateAccessLevel
    cases hb : isAuthenticatedRequestor verifyToken authHeader <;> simp

/-- C6: Ownership isolation — for the quote-deletion endpoint, an authenticated
caller whose verified username claim differs from the target quote's owner is
judged not to own the resource: the ownership evaluator returns false, and per the
spec a false evaluator resolves to a forbidden rejection. -/
theorem ownership_isolation_C6
    (getQuoteWithId : JStr → Option Quote) (verifyToken : JStr → Option JwtClaims)
    (authHeader : Option JStr) (body : DeleteQuoteBody) (t : JStr) (c : JwtClaims) (q : Quote)
    (hg : getAuthToken authHeader = some t) (ht : t ≠ [])
    (hv : verifyToken t = some c)
    (hq : getQuoteWithId body.quoteId = some q)
    (hown : c.username ≠ q.ownerUserId) :
    QuotesEndpointGenerator.owns getQuoteWithId verifyToken authHeader (some body) =
      .ok false ∧
    gateOwnership false = .forbidden := by
  constructor
  · have he : t.isEmpty = false := by simpa [List.isEmpty_iff] using ht
    simp only [QuotesEndpointGenerator.owns, hg, hv, hq, he, Bool.false_eq_true, if_false]
    simp [hown]
  · rfl

/-- Witness for C6: a caller authenticated as `newb` attempting to delete quote 0,
owned by `apix@evoluti.us`, is judged not to own it. -/
theorem ownership_isolation_C6_witness :
    QuotesEndpointGenerator.owns (fun id => List.lookup id initialQuotes)
      (fun _ => some ⟨jstr "newb"⟩) (some (jstr "Bearer tok")) (some ⟨jstr "0"⟩) =
      .ok false ∧
    gateOwnership false = .forbidden :=
  ownership_isolation_C6 (fun id => List.lookup id initialQuotes)
    (fun _ => some ⟨jstr "newb"⟩) (some (jstr "Bearer tok")) ⟨jstr "0"⟩
    (jstr "tok") ⟨jstr "newb"⟩
    ⟨jstr "0", jstr "I think, therefore I am.", jstr "René Descartes",
      jstr "1637", jstr "apix@evoluti.us"⟩
    (by decide) (by decide) rfl (by decide) (by decide)

/-- C7: Body validation for adding quotes — `AddQuoteSchemaValidator.isValid` holds
iff content, author and date are defined, content and author are non-empty strings
over the allow-listed characters, and date is non-empty; the acceptance sequence's
body containing `---***` fails it, the pipeline rejects such a body with a
400-class error before the handler runs, and the expected response confirms the
400 status. -/
theorem addQuote_validation_C7 :
    (∀ body : AddQuoteBody,
      AddQuoteSchemaValidator.isValid body = true ↔
        ∃ c a d, body.content = some c ∧ body.author = some a ∧ body.date = some d ∧
          c ≠ [] ∧ c.all addQuoteAllowedUnit = true ∧
          a ≠ [] ∧ a.all addQuoteAllowedUnit = true ∧ d ≠ []) ∧
    AddQuoteSchemaValidator.isValid gamoraInvalidBody = false ∧
    bodyValidationGate true (AddQuoteSchemaValidator.isValid gamoraInvalidBody) =
      .reject 400 ∧
    addQuoteInvalidBodyExpectedResponse.statusCode = 400 := by
  refine ⟨?_, by decide, by decide, rfl⟩
  intro body
  obtain ⟨c, a, d⟩ := body
  cases c <;> cases a <;> cases d <;>
    simp [AddQuoteSchemaValidator.isValid, addQuoteRegexTest, List.isEmpty_iff,
      List.length_pos, and_assoc, and_comm, and_left_comm]

/-- C8: Nonce generation — for every length and every possible sequence of draws of
the random source, `generateNonce` returns exactly `length` characters, all from
the 62-character alphanumeric alphabet; and uniqueness across calls is not
guaranteed (distinct draw sequences can yield the same nonce). -/
theorem generateNonce_C8 :
    (∀ (draws : Nat → Fin 62) (length : Nat),
      (generateNonce draws length).length = length ∧
      ∀ u ∈ generateNonce draws length, u ∈ nonceCharacters) ∧
    (∃ d d2 : Nat → Fin 62, d ≠ d2 ∧ generateNonce d 16 = generateNonce d2 16) := by
  constructor
  · intro draws length
    constructor
    · simp [generateNonce]
    · intro u hu
      simp only [generateNonce, List.mem_map, List.mem_range] at hu
      obtain ⟨i, -, rfl⟩ := hu
      have hall : ∀ j : Fin 62, nonceCharacters.getD (j : Nat) 0 ∈ nonceCharacters := by decide
      exact hall (draws i)
  · refine ⟨(fun _ => 0), (fun i => if i < 16 then 0 else 1), ?_, rfl⟩
    intro hcontra
    have h16 := congrFun hcontra 16
    simp at h16

/-- Removing the entry keyed `id` makes `id` unfindable. -/
theorem lookup_filter_self (l : QuoteStore) (id : JStr) :
    List.lookup id (l.filter fun p => !(p.1 == id)) = none := by
  induction l with
  | nil => rfl
  | cons p rest ih =>
    by_cases h : p.1 = id
    · simp [List.filter_cons, h, ih]
    · simp [List.filter_cons, beq_false_of_ne h, List.lookup,
        beq_false_of_ne (Ne.symm h), ih]

/-- Removing the entry keyed `id` leaves every other key's lookup unchanged. -/
theorem lookup_filter_other (l : QuoteStore) (id k : JStr) (hne : k ≠ id) :
    List.lookup k (l.filter fun p => !(p.1 == id)) = List.lookup k l := by
  induction l with
  | nil => rfl
  | cons p rest ih =>
    by_cases h : p.1 = id
    · have hki : (k == id) = false := beq_false_of_ne hne
      simp [List.filter_cons, h, List.lookup, hki, ih]
    · by_cases h2 : k = p.1
      · simp [List.filter_cons, beq_false_of_ne h, List.lookup, h2]
      · simp [List.filter_cons, beq_false_of_ne h, List.lookup, beq_false_of_ne h2, ih]

/-- C9: Quote deletion raises iff the id is absent; a raise leaves the store
unchanged and the handler converts the thrown error's message into a terminal
404 envelope with success false; a success removes exactly the entry `id` and
preserves every other entry, and the handler returns the success envelope. -/
theorem deleteQuote_C9 (quotes : QuoteStore) (id : JStr) :
    ((∃ msg, deleteQuote quotes id = .error msg) ↔ List.lookup id quotes = none) ∧
    (∀ msg, deleteQuote quotes id = .error msg →
      msg = jstr "No quote with ID " ++ id ++ jstr " found." ∧
      deleteQuoteHandler quotes id =
        (quotes,
         { status := some 404,
           data := .obj [(jstr "success", .bool false),
                         (jstr "error", .obj [(jstr "id", .str (jstr "NotFound")),
                                              (jstr "message", .str msg)])] })) ∧
    (∀ q2, deleteQuote quotes id = .ok q2 →
      List.lookup id q2 = none ∧
      (∀ k, k ≠ id → List.lookup k q2 = List.lookup k quotes) ∧
      deleteQuoteHandler quotes id =
        (q2, { status := none,
               data := .obj [(jstr "success", .bool true),
                             (jstr "message",
                              .str (jstr "Successfully deleted quote with ID " ++ id))] })) := by
  refine ⟨⟨?_, ?_⟩, ?_, ?_⟩
  · rintro ⟨msg, hmsg⟩
    unfold deleteQuote at hmsg
    cases hl : List.lookup id quotes with
    | none => rfl
    | some q => rw [hl] at hmsg; exact absurd hmsg (by simp)
  · intro hl
    exact ⟨_, by unfold deleteQuote; rw [hl]⟩
  · intro msg hmsg
    unfold deleteQuote at hmsg
    cases hl : List.lookup id quotes with
    | some q => rw [hl] at hmsg; exact absurd hmsg (by simp)
    | none =>
      rw [hl] at hmsg
      simp only [Except.error.injEq] at hmsg
      subst hmsg
      exact ⟨rfl, by simp [deleteQuoteHandler, deleteQuote, hl]⟩
  · intro q2 hok
    unfold deleteQuote at hok
    cases hl : List.lookup id quotes with
    | none => rw [hl] at hok; exact absurd hok (by simp)
    | some q =>
      rw [hl] at hok
      simp only [Except.ok.injEq] at hok
      subst hok
      exact ⟨lookup_filter_self quotes id,
        fun k hk => lookup_filter_other quotes id k hk,
        by simp [deleteQuoteHandler, deleteQuote, hl]⟩

/-- Witness for C9: deleting quote 3 from the initial store removes exactly it
(quote 0 is still found), and deleting the absent quote 9 throws. -/
theorem deleteQuote_C9_witness :
    List.lookup (jstr "3") (initialQuotes.filter fun p => !(p.1 == jstr "3")) = none ∧
    List.lookup (jstr "0") (initialQuotes.filter fun p => !(p.1 == jstr "3")) =
      List.lookup (jstr "0") initialQuotes ∧
    (∃ msg, deleteQuote initialQuotes (jstr "9") = .error msg) := by
  have h3 := (deleteQuote_C9 initialQuotes (jstr "3")).2.2
    (initialQuotes.filter fun p => !(p.1 == jstr "3")) rfl
  have h9 := (deleteQuote_C9 initialQuotes (jstr "9")).1.mpr (by decide)
  exact ⟨h3.1, h3.2.1 (jstr "0") (by decide), h9⟩

/-- A present key forces the overwrite branch of `setKey` to find it. -/
theorem lookup_map_overwrite (l : QuoteStore) (id : JStr) (q : Quote) :
    l.any (fun p => p.1 == id) = true →
    List.lookup id (l.map fun p => if p.1 == id then (id, q) else p) = some q := by
  induction l with
  | nil => intro h; simp at h
  | cons p rest ih =>
    intro h
    cases hfb : (p.1 == id) with
    | true =>
      have hhead : (if (p.1 == id) = true then (id, q) else p) = (id, q) := if_pos hfb
      rw [List.map_cons, hhead]
      simp [List.lookup]
    | false =>
      have hhead : (if (p.1 == id) = true then (id, q) else p) = p := if_neg (by simp [hfb])
      rw [List.map_cons, hhead]
      simp only [List.any_cons, hfb, Bool.false_or] at h
      have hne : p.1 ≠ id := by simpa using hfb
      have hk : (id == p.1) = false := beq_false_of_ne (Ne.symm hne)
      simp only [List.lookup, hk]
      exact ih h

/-- An absent key lands in the appended entry of `setKey`. -/
theorem lookup_append_new (l : QuoteStore) (id : JStr) (q : Quote) :
    l.any (fun p => p.1 == id) = false →
    List.lookup id (l ++ [(id, q)]) = some q := by
  induction l with
  | nil => intro _; simp [List.lookup]
  | cons p rest ih =>
    intro h
    simp only [List.any_cons, Bool.or_eq_false_iff] at h
    have hk : (id == p.1) = false := by
      refine beq_false_of_ne fun e => ?_
      rw [e] at h
      simp at h
    simp [List.cons_append, List.lookup, hk, ih h.2]

/-- A key that looks up successfully is among the keys. -/
theorem any_key_of_lookup (l : QuoteStore) (k : JStr) (q0 : Quote)
    (h : List.lookup k l = some q0) : l.any (fun p => p.1 == k) = true := by
  induction l with
  | nil => simp [List.lookup] at h
  | cons p rest ih =>
    by_cases hp : k = p.1
    · simp [List.any_cons, hp]
    · have hk : (k == p.1) = false := beq_false_of_ne hp
      simp only [List.lookup, hk] at h
      simp [List.any_cons, ih h]

/-- C10: `addQuote` always stores and returns a quote whose id is the decimal
string of the current number of stored quotes and whose owner is `newb`; when a
quote with that id is already present (as after deleting a quote with a lower id),
the new quote silently overwrites it: the store does not grow and the id now maps
to the new quote. -/
theorem addQuote_C10 :
    (∀ (quotes : QuoteStore) (content author date : JStr),
      (addQuote quotes content author date).2.id = natToJStr quotes.length ∧
      (addQuote quotes content author date).2.ownerUserId = jstr "newb" ∧
      List.lookup (natToJStr quotes.length) (addQuote quotes content author date).1 =
        some (addQuote quotes content author date).2) ∧
    (∀ (quotes : QuoteStore) (content author date : JStr) (q0 : Quote),
      List.lookup (natToJStr quotes.length) quotes = some q0 →
      (addQuote quotes content author date).1.length = quotes.length ∧
      List.lookup (natToJStr quotes.length) (addQuote quotes content author date).1 =
        some (addQuote quotes content author date).2) := by
  have hstore : ∀ (quotes : QuoteStore) (content author date : JStr),
      List.lookup (natToJStr quotes.length) (addQuote quotes content author date).1 =
        some (addQuote quotes content author date).2 := by
    intro quotes content author date
    unfold addQuote setKey
    by_cases h : quotes.any (fun p => p.1 == natToJStr quotes.length) = true
    · simp only [h, if_true]
      exact lookup_map_overwrite _ _ _ h
    · rw [Bool.not_eq_true] at h
      simp only [h, Bool.false_eq_true, if_false]
      exact lookup_append_new _ _ _ h
  constructor
  · intro quotes content author date
    exact ⟨rfl, rfl, hstore quotes content author date⟩
  · intro quotes content author date q0 h0
    have hany := any_key_of_lookup quotes (natToJStr quotes.length) q0 h0
    refine ⟨?_, hstore quotes content author date⟩
    unfold addQuote setKey
    simp [hany]

/-- Witness for C10: after deleting quote 3 from the initial nine-quote store the
count is 8, so the next added quote reuses id `8` — the id of the still-present
Shakespeare quote — overwriting it without growing the store. -/
theorem addQuote_C10_witness :
    (addQuote (initialQuotes.filter fun p => !(p.1 == jstr "3"))
        (jstr "Why is Gamora?") (jstr "Drax the Destroyer") (jstr "2018")).1.length =
      (initialQuotes.filter fun p => !(p.1 == jstr "3")).length ∧
    List.lookup (natToJStr (initialQuotes.filter fun p => !(p.1 == jstr "3")).length)
        (addQuote (initialQuotes.filter fun p => !(p.1 == jstr "3"))
          (jstr "Why is Gamora?") (jstr "Drax the Destroyer") (jstr "2018")).1 =
      some (addQuote (initialQuotes.filter fun p => !(p.1 == jstr "3"))
          (jstr "Why is Gamora?") (jstr "Drax the Destroyer") (jstr "2018")).2 :=
  addQuote_C10.2 (initialQuotes.filter fun p => !(p.1 == jstr "3"))
    (jstr "Why is Gamora?") (jstr "Drax the Destroyer") (jstr "2018")
    ⟨jstr "8", jstr "All the world’s a stage, and all the men and women merely players.",
      jstr "William Shakespeare", jstr "1599", jstr "apix@evoluti.us"⟩
    (by decide)

end ApiX
